import Mathlib

/-!
Verification of the analytics engine of `johnny/webapp/app.py`
(notional calculator, chain statistics, ratio-distribution filter,
trade-history renderers).

Numeric values (`Decimal` and numpy floats in the source) are modelled as
rationals `ℚ`; fallible computations are modelled with `Option`/`Except`
so that a Python exception (ZeroDivisionError, IndexError, TypeError,
decimal.InvalidOperation, ValueError) corresponds to an error value.
-/

namespace Johnny

/-! ### Round-half-even quantization

`Decimal.quantize` with the default `ROUND_HALF_EVEN` context rounding.
`rhe q` is the integer nearest to `q`, ties going to the even integer. -/

/-- Round half even to an integer (banker's rounding), the default rounding
of Python `decimal` quantization. -/
def rhe (q : ℚ) : ℤ :=
  let f : ℤ := ⌊q⌋
  let r : ℚ := q - f
  if r < 1/2 then f
  else if 1/2 < r then f + 1
  else if f % 2 = 0 then f else f + 1

/-- `value.quantize(Decimal('0.01'))`: round half even to two decimal places. -/
def quantize2 (q : ℚ) : ℚ := (rhe (q * 100) : ℚ) / 100

/-- `Decimal(value).quantize(Decimal('0'))`: round half even to an integer
(the `Quantize` helper inside the `stats` handler). -/
def quantizeZ (q : ℚ) : ℤ := rhe q

/-! ### Notional calculator (`GetNotional`) -/

/-- An expanded position/transaction row, restricted to the fields consulted
by `GetNotional`.  `putcall` is `none` when the Python field is `None`; a
present string is modelled as its character list. -/
structure NotionalRec where
  instype : String
  putcall : Option (List Char)
  quantity : ℚ
  multiplier : ℚ
  strike : ℚ
  price : ℚ
deriving Repr, DecidableEq

/-- Failure modes of `GetNotional`:
`invalidInstrumentType` models `raise ValueError(f"Invalid instrument type: {instype}")`,
`putcallNone` the `TypeError` from `None[0]`, and `putcallEmpty` the
`IndexError` from `""[0]`. -/
inductive NotionalErr where
  | invalidInstrumentType (s : String)
  | putcallNone
  | putcallEmpty
deriving Repr, DecidableEq

/-- `GetNotional(rec)`: classify the row and compute its notional, quantized
to `0.01`; direct embedding of the source function. -/
def GetNotional (rec : NotionalRec) : Except NotionalErr ℚ :=
  if rec.instype = "EquityOption" ∨ rec.instype = "FutureOption" then
    match rec.putcall with
    | none => .error .putcallNone
    | some [] => .error .putcallEmpty
    | some (c :: _) =>
      if c = 'P' then .ok (quantize2 (rec.quantity * rec.multiplier * rec.strike))
      else .ok (quantize2 0)
  else if rec.instype = "Equity" ∨ rec.instype = "Future" then
    .ok (quantize2 (rec.quantity * rec.multiplier * rec.price))
  else
    .error (.invalidInstrumentType rec.instype)

/-- The spec's reference definition of the notional (§4.1 / §8 of the spec):
equity and future rows use the price, put options the strike, call options
contribute zero.  "Put" means the `putcall` field starts with `"P"`. -/
def notionalSpec (rec : NotionalRec) : ℚ :=
  if rec.instype = "Equity" ∨ rec.instype = "Future" then
    quantize2 (rec.quantity * rec.multiplier * rec.price)
  else if rec.instype = "EquityOption" ∨ rec.instype = "FutureOption" then
    match rec.putcall with
    | some pc => if ['P'].isPrefixOf pc then
        quantize2 (rec.quantity * rec.multiplier * rec.strike)
      else 0
    | none => 0
  else 0

/-- A concrete valid put-option row used by witnesses. -/
def sampleOptionRec : NotionalRec :=
  { instype := "EquityOption", putcall := some ['P'], quantity := 2,
    multiplier := 100, strike := 50, price := 3 }

/-- A concrete equity row used by witnesses. -/
def sampleEquityRec : NotionalRec :=
  { instype := "Equity", putcall := none, quantity := 100,
    multiplier := 1, strike := 0, price := 50 }

/-- The option row with a `None` putcall: `GetNotional` faults on it even
though its instrument type is recognized. -/
def badPutcallRec : NotionalRec :=
  { instype := "EquityOption", putcall := none, quantity := 1,
    multiplier := 100, strike := 50, price := 3 }

/-- An unrecognized instrument type row. -/
def badInstypeRec : NotionalRec :=
  { instype := "Crypto", putcall := none, quantity := 1,
    multiplier := 1, strike := 0, price := 10 }

/-- A call-option row (putcall starts with `C`). -/
def sampleCallRec : NotionalRec :=
  { instype := "FutureOption", putcall := some ['C'], quantity := 3,
    multiplier := 50, strike := 4200, price := 7 }

theorem quantize2_zero : quantize2 0 = 0 := by
  simp [quantize2, rhe]

/-- C3: for every expanded row (a recognized instrument type, and a
non-empty `putcall` on option rows), `GetNotional` succeeds and equals the
spec's reference definition: price-based notional for equities and futures,
strike-based notional for puts, zero for calls, quantized to `0.01`
round-half-even. -/
theorem getNotional_matches_spec (rec : NotionalRec)
    (hty : rec.instype = "EquityOption" ∨ rec.instype = "FutureOption" ∨
           rec.instype = "Equity" ∨ rec.instype = "Future")
    (hpc : rec.instype = "EquityOption" ∨ rec.instype = "FutureOption" →
           ∃ c cs, rec.putcall = some (c :: cs)) :
    GetNotional rec = .ok (notionalSpec rec) := by
  rcases hty with h | h | h | h
  · obtain ⟨c, cs, hcs⟩ := hpc (Or.inl h)
    by_cases hP : c = 'P' <;>
      [skip; have hP2 : ¬('P' = c) := fun hh => hP hh.symm] <;>
      simp_all [GetNotional, notionalSpec, h, hcs, List.isPrefixOf,
            quantize2_zero]
  · obtain ⟨c, cs, hcs⟩ := hpc (Or.inr h)
    by_cases hP : c = 'P' <;>
      [skip; have hP2 : ¬('P' = c) := fun hh => hP hh.symm] <;>
      simp_all [GetNotional, notionalSpec, h, hcs, List.isPrefixOf,
            quantize2_zero]
  · simp [GetNotional, notionalSpec, h]
  · simp [GetNotional, notionalSpec, h]

theorem getNotional_matches_spec_witness :
    GetNotional sampleOptionRec = .ok (notionalSpec sampleOptionRec) :=
  getNotional_matches_spec sampleOptionRec (Or.inl rfl)
    (fun _ => ⟨'P', [], rfl⟩)

/-- C4 counterexample: `badPutcallRec` has the recognized instrument type
`EquityOption`, yet `GetNotional` fails on it (with the putcall fault, not
`InvalidInstrumentType`), because its `putcall` field is `None`.  So
"fails if and only if the instype is outside the four recognized types" is
false as stated. -/
theorem getNotional_fails_inside_domain :
    badPutcallRec.instype = "EquityOption" ∧
    GetNotional badPutcallRec = .error .putcallNone :=
  ⟨rfl, rfl⟩

/-- C4 (amended): for rows whose `putcall` is present and non-empty whenever
the instrument type is an option type, `GetNotional` fails if and only if
the row's instype is outside {EquityOption, FutureOption, Equity, Future},
and on such a row it fails with `InvalidInstrumentType` carrying the
offending type string — it never silently defaults to a value. -/
theorem getNotional_error_iff (rec : NotionalRec)
    (hpc : rec.instype = "EquityOption" ∨ rec.instype = "FutureOption" →
           ∃ c cs, rec.putcall = some (c :: cs)) :
    ((∃ e, GetNotional rec = .error e) ↔
      ¬(rec.instype = "EquityOption" ∨ rec.instype = "FutureOption" ∨
        rec.instype = "Equity" ∨ rec.instype = "Future")) ∧
    (¬(rec.instype = "EquityOption" ∨ rec.instype = "FutureOption" ∨
        rec.instype = "Equity" ∨ rec.instype = "Future") →
      GetNotional rec = .error (.invalidInstrumentType rec.instype)) := by
  by_cases hopt : rec.instype = "EquityOption" ∨ rec.instype = "FutureOption"
  · obtain ⟨c, cs, hcs⟩ := hpc hopt
    rcases hopt with h | h <;> by_cases hP : c = 'P' <;>
      simp [GetNotional, h, hcs, hP]
  · by_cases heq : rec.instype = "Equity" ∨ rec.instype = "Future"
    · have hok : GetNotional rec
          = .ok (quantize2 (rec.quantity * rec.multiplier * rec.price)) := by
        simp [GetNotional, hopt, heq]
      refine ⟨⟨?_, ?_⟩, ?_⟩
      · rintro ⟨e, he⟩
        rw [hok] at he
        exact absurd he (by simp)
      · intro hn
        exact absurd (Or.inr (Or.inr heq)) hn
      · intro hn
        exact absurd (Or.inr (Or.inr heq)) hn
    · constructor
      · constructor
        · intro _ hin
          rcases hin with h | h | h | h <;> simp [h] at hopt heq
        · intro _
          exact ⟨.invalidInstrumentType rec.instype, by simp [GetNotional, hopt, heq]⟩
      · intro _
        simp [GetNotional, hopt, heq]

theorem getNotional_error_iff_witness :
    GetNotional badInstypeRec = .error (.invalidInstrumentType "Crypto") :=
  (getNotional_error_iff badInstypeRec
      (fun h => absurd h (by decide))).2 (by decide)

/-- C10: on an option-typed row `GetNotional` looks only at the first
character of `putcall`: a present, non-empty `putcall` not starting with
`'P'` yields notional 0, and the option branch is fault-free exactly when
`putcall` is present and non-empty. -/
theorem getNotional_putcall_first_char (rec : NotionalRec)
    (hty : rec.instype = "EquityOption" ∨ rec.instype = "FutureOption") :
    (∀ c cs, rec.putcall = some (c :: cs) → c ≠ 'P' →
        GetNotional rec = .ok 0) ∧
    ((∃ q, GetNotional rec = .ok q) ↔ ∃ c cs, rec.putcall = some (c :: cs)) := by
  constructor
  · intro c cs hcs hP
    rcases hty with h | h <;>
      simp [GetNotional, h, hcs, hP, quantize2_zero]
  · constructor
    · rintro ⟨q, hq⟩
      rcases hpc : rec.putcall with _ | ⟨_ | ⟨c, cs⟩⟩ <;>
        rcases hty with h | h <;>
        simp [GetNotional, h, hpc] at hq <;>
        exact ⟨c, cs, rfl⟩
    · rintro ⟨c, cs, hcs⟩
      rcases hty with h | h <;> by_cases hP : c = 'P' <;>
        simp [GetNotional, h, hcs, hP]

theorem getNotional_putcall_first_char_witness :
    GetNotional sampleCallRec = .ok 0 :=
  (getNotional_putcall_first_char sampleCallRec (Or.inr rfl)).1 'C' [] rfl
    (by decide)

/-! ### Ratio distribution filter (`RatioDistribution`)

The source works on parallel numpy arrays and boolean masks
(`num[mask]`, `denom[mask]`); we model arrays as `List ℚ` and a boolean
mask selection as `applyMask`. -/

/-- The float literal `1e-6` of the source. -/
def eps : ℚ := 1 / 1000000

/-- Numpy boolean-mask selection `xs[mask]`: keep, in order, the elements
of `xs` whose mask entry is `true`. -/
def applyMask (mask : List Bool) (xs : List ℚ) : List ℚ :=
  ((mask.zip xs).filter (fun p => p.1)).map (fun p => p.2)

/-- `RatioDistribution(num, denom, threshold)`: drop pairs with
`denom > 1e-6` false, then drop pairs with numerator outside
`(-threshold, threshold)`, then return `num/denom * 100` elementwise. -/
def RatioDistribution (num denom : List ℚ) (threshold : ℚ) : List ℚ :=
  let mask1 := denom.map (fun d => decide (eps < d))
  let num1 := applyMask mask1 num
  let denom1 := applyMask mask1 denom
  let mask2 := num1.map (fun n => decide (n < threshold) && decide (-threshold < n))
  let num2 := applyMask mask2 num1
  let denom2 := applyMask mask2 denom1
  (num2.zip denom2).map (fun p => p.1 / p.2 * 100)

theorem applyMask_map {α : Type} (p : α → Bool) (f : α → ℚ) (l : List α) :
    applyMask (l.map p) (l.map f) = (l.filter p).map f := by
  induction l with
  | nil => rfl
  | cons a l ih =>
    by_cases hp : p a <;> simp [applyMask, hp] <;> simpa [applyMask] using ih

theorem zip_map_proj (l : List (ℚ × ℚ)) :
    (l.map Prod.fst).zip (l.map Prod.snd) = l := by
  induction l with
  | nil => rfl
  | cons a l ih => simp [ih]

/-- Helper: the pipeline over parallel arrays that are projections of one
pair list, rewritten as filters and a map over that pair list. -/
theorem ratioDistribution_zipped (l : List (ℚ × ℚ)) (t : ℚ) :
    RatioDistribution (l.map Prod.fst) (l.map Prod.snd) t
      = ((l.filter (fun q => decide (eps < q.2))).filter
            (fun q => decide (q.1 < t) && decide (-t < q.1))).map
          (fun q => q.1 / q.2 * 100) := by
  simp only [RatioDistribution, List.map_map]
  rw [applyMask_map, applyMask_map, List.map_map, applyMask_map, applyMask_map,
      zip_map_proj]
  simp [Function.comp]

/-- Helper: the whole pipeline over two equal-length parallel arrays. -/
theorem ratioDistribution_eq_pipeline (num denom : List ℚ) (t : ℚ)
    (h : num.length = denom.length) :
    RatioDistribution num denom t
      = (((num.zip denom).filter (fun q => decide (eps < q.2))).filter
            (fun q => decide (q.1 < t) && decide (-t < q.1))).map
          (fun q => q.1 / q.2 * 100) := by
  have hnum : (num.zip denom).map Prod.fst = num := List.map_fst_zip num denom h.le
  have hdenom : (num.zip denom).map Prod.snd = denom := List.map_snd_zip num denom h.ge
  have hsplit : RatioDistribution num denom t
      = RatioDistribution ((num.zip denom).map Prod.fst)
          ((num.zip denom).map Prod.snd) t := by
    rw [hnum, hdenom]
  rw [hsplit]
  exact ratioDistribution_zipped (num.zip denom) t

/-- Helper: the denominator mask pass over projections of one pair list. -/
theorem denomMask_zipped (l : List (ℚ × ℚ)) :
    (applyMask ((l.map Prod.snd).map (fun d => decide (eps < d))) (l.map Prod.fst)).zip
      (applyMask ((l.map Prod.snd).map (fun d => decide (eps < d))) (l.map Prod.snd))
      = l.filter (fun q => decide (eps < q.2)) := by
  rw [List.map_map, applyMask_map, applyMask_map, zip_map_proj]
  rfl

/-- C6: the filtering pipeline of `RatioDistribution`.  After the
denominator pass, a surviving pair is kept by the second pass exactly when
its raw numerator lies inside the open interval `(-threshold, threshold)`
(the test reads raw numerators, not ratios), and every kept pair
contributes `numerator/denominator * 100` to the output, in input order. -/
theorem ratioDistribution_threshold_on_raw_numerator (num denom : List ℚ) (t : ℚ)
    (h : num.length = denom.length) :
    RatioDistribution num denom t
      = (((num.zip denom).filter (fun q => decide (eps < q.2))).filter
            (fun q => decide (q.1 < t) && decide (-t < q.1))).map
          (fun q => q.1 / q.2 * 100) ∧
    ∀ q ∈ (num.zip denom).filter (fun q => decide (eps < q.2)),
      (q ∈ ((num.zip denom).filter (fun q => decide (eps < q.2))).filter
            (fun q => decide (q.1 < t) && decide (-t < q.1))
        ↔ (-t < q.1 ∧ q.1 < t)) := by
  refine ⟨ratioDistribution_eq_pipeline num denom t h, ?_⟩
  intro q hq
  simp only [List.mem_filter, decide_eq_true_eq, Bool.and_eq_true] at hq ⊢
  tauto

theorem ratioDistribution_threshold_witness :
    RatioDistribution [5, 2000, 3] [1, 1, 0] 1000
      = ((([(5 : ℚ), 2000, 3].zip [(1 : ℚ), 1, 0]).filter
            (fun q => decide (eps < q.2))).filter
            (fun q => decide (q.1 < 1000) && decide (-1000 < q.1))).map
          (fun q => q.1 / q.2 * 100) :=
  (ratioDistribution_threshold_on_raw_numerator [5, 2000, 3] [1, 1, 0] 1000 rfl).1

/-- C2 counterexample: the pair `(1, -1)` has a denominator of absolute
value `1 ≥ 1e-6`, yet `RatioDistribution` drops it (the source masks with
`denom > 1e-6`, a signed comparison, not an absolute-value one), so the
output is empty rather than `[-100]`. -/
theorem ratioDistribution_drops_negative_denominator :
    RatioDistribution [1] [-1] 1000 = [] ∧ eps ≤ |(-1 : ℚ)| := by
  constructor
  · have hmask : decide (eps < (-1 : ℚ)) = false := by
      simp only [decide_eq_false_iff_not, not_lt, eps]
      norm_num
    simp [RatioDistribution, applyMask, hmask]
  · norm_num [eps]

/-- C2 (amended): the denominator pass keeps exactly the pairs whose
denominator is greater than 1e-6; every other pair — in particular every
pair with a negative or zero denominator, whatever its absolute value — is
dropped.  Consequently an input in which every denominator's absolute value
is below 1e-6 yields an empty output series. -/
theorem ratioDistribution_denominator_filter (num denom : List ℚ) (t : ℚ)
    (h : num.length = denom.length) :
    ((applyMask (denom.map (fun d => decide (eps < d))) num).zip
        (applyMask (denom.map (fun d => decide (eps < d))) denom)
      = (num.zip denom).filter (fun q => decide (eps < q.2))) ∧
    ((∀ d ∈ denom, |d| < eps) → RatioDistribution num denom t = []) := by
  have hnum : (num.zip denom).map Prod.fst = num := List.map_fst_zip num denom h.le
  have hdenom : (num.zip denom).map Prod.snd = denom := List.map_snd_zip num denom h.ge
  constructor
  · have hsplit :
        (applyMask (denom.map (fun d => decide (eps < d))) num).zip
          (applyMask (denom.map (fun d => decide (eps < d))) denom)
        = (applyMask (((num.zip denom).map Prod.snd).map (fun d => decide (eps < d)))
              ((num.zip denom).map Prod.fst)).zip
            (applyMask (((num.zip denom).map Prod.snd).map (fun d => decide (eps < d)))
              ((num.zip denom).map Prod.snd)) := by
      rw [hnum, hdenom]
    rw [hsplit]
    exact denomMask_zipped (num.zip denom)
  · intro hall
    rw [ratioDistribution_eq_pipeline num denom t h]
    have hfil : (num.zip denom).filter (fun q => decide (eps < q.2)) = [] := by
      rw [List.filter_eq_nil_iff]
      intro q hq
      have hq2 : (q.1, q.2) ∈ num.zip denom := by simpa using hq
      have hd : q.2 ∈ denom := (List.of_mem_zip hq2).2
      have habs := hall q.2 hd
      simp only [decide_eq_true_eq]
      intro hlt
      have hle : q.2 < eps := lt_of_le_of_lt (le_abs_self q.2) habs
      exact absurd hlt (not_lt.mpr hle.le)
    rw [hfil]
    rfl

theorem ratioDistribution_denominator_filter_witness :
    RatioDistribution [1, 2] [1/2000000, -1/2000000] 1000 = [] :=
  (ratioDistribution_denominator_filter [1, 2] [1/2000000, -1/2000000] 1000
      rfl).2 (by
    intro d hd
    simp only [List.mem_cons, List.not_mem_nil, or_false] at hd
    rcases hd with h | h <;> rw [h, abs_lt] <;> constructor <;> norm_num [eps])

/-! ### Chain statistics engine (the `stats` view)

The chain table is pre-filtered by `FilterChains` (an external containment
filter); `stats` then adds `pct_cr`, biselects winners and losers, and
builds a fixed summary table.  We model the numeric content of that table;
string formatting (`'${}'`, `'{:.1%}'`) is presentation only. -/

/-- A chain summary row, restricted to the fields the `stats` view reads. -/
structure ChainRow where
  chain_pnl : ℚ
  init : ℚ
  accr : ℚ
deriving Repr, DecidableEq

/-- Python division: raises `ZeroDivisionError` on a zero denominator
(modelled as `none`), otherwise the exact quotient. -/
def pyDiv (a b : ℚ) : Option ℚ := if b = 0 then none else some (a / b)

/-- `PctCr(rec)`: `0 if rec.init == 0 else rec.chain_pnl / rec.init`. -/
def PctCr (rec : ChainRow) : ℚ :=
  if rec.init = 0 then 0 else rec.chain_pnl / rec.init

/-- `PctCr` with the division in the `else` branch modelled as fallible
(`pyDiv`), to show the division-by-zero fault is unreachable. -/
def PctCrChecked (rec : ChainRow) : Option ℚ :=
  if rec.init = 0 then some 0 else pyDiv rec.chain_pnl rec.init

/-- `chains.biselect(lambda r: r.chain_pnl > 0)`, first component. -/
def winners (chains : List ChainRow) : List ChainRow :=
  chains.filter (fun r => decide (0 < r.chain_pnl))

/-- `chains.biselect(lambda r: r.chain_pnl > 0)`, second component. -/
def losers (chains : List ChainRow) : List ChainRow :=
  chains.filter (fun r => !decide (0 < r.chain_pnl))

/-- Unguarded `np.mean`: on an empty array it yields NaN, which makes the
subsequent `Decimal(value).quantize` raise — modelled as `none`. -/
def npMean (xs : List ℚ) : Option ℚ :=
  if xs.length = 0 then none else some (xs.sum / xs.length)

/-- `np.mean` behind a `if arr.size else ZERO` guard at its call sites:
only ever applied to non-empty lists. -/
def npMeanVal (xs : List ℚ) : ℚ := xs.sum / xs.length

/-- `np.max`; its empty case is unreachable because every call site is
guarded by `if arr.size else ZERO`. -/
def npMaxVal : List ℚ → ℚ
  | [] => 0
  | x :: xs => xs.foldl max x

/-- `np.min`; empty case unreachable as for `npMaxVal`. -/
def npMinVal : List ℚ → ℚ
  | [] => 0
  | x :: xs => xs.foldl min x

/-- The numeric content of the 9-row summary table built by `stats`
(dollar cells quantized to integer dollars round-half-even, percentage
cells kept as exact ratios). -/
structure StatsRows where
  pl : ℤ
  winCount : ℕ
  totalCount : ℕ
  winRatio : ℚ
  avgInit : ℤ
  avgPl : ℤ
  avgPct : ℚ
  avgPlWin : ℤ
  avgPctWin : ℚ
  avgPlLos : ℤ
  avgPctLos : ℚ
  maxWin : ℤ
  maxLos : ℤ
deriving Repr, DecidableEq

/-- The `stats` view: add `pct_cr`, biselect winners/losers, and compute
every cell of the summary table.  The two aggregates the source leaves
unguarded — `len(pnl_win)/len(pnl)` and `np.mean(init_cr)` — go through
the fallible `pyDiv`/`npMean`; all other aggregates carry the source's
`if arr.size else ZERO` guard. -/
def stats (chains : List ChainRow) : Option StatsRows :=
  let win := winners chains
  let los := losers chains
  let pnl := chains.map (fun r => r.chain_pnl)
  let pnl_win := win.map (fun r => r.chain_pnl)
  let pnl_los := los.map (fun r => r.chain_pnl)
  let init_cr := chains.map (fun r => r.init)
  let pct_cr := chains.map PctCr
  let pct_cr_win := win.map PctCr
  let pct_cr_los := los.map PctCr
  do
    let winRatio ← pyDiv (pnl_win.length : ℚ) (pnl.length : ℚ)
    let avgInit ← npMean init_cr
    some {
      pl := quantizeZ (if pnl.length ≠ 0 then pnl.sum else 0)
      winCount := pnl_win.length
      totalCount := pnl.length
      winRatio := winRatio
      avgInit := quantizeZ avgInit
      avgPl := quantizeZ (if pnl.length ≠ 0 then npMeanVal pnl else 0)
      avgPct := if pct_cr.length ≠ 0 then npMeanVal pct_cr else 0
      avgPlWin := quantizeZ (if pnl_win.length ≠ 0 then npMeanVal pnl_win else 0)
      avgPctWin := if pct_cr_win.length ≠ 0 then npMeanVal pct_cr_win else 0
      avgPlLos := quantizeZ (if pnl_los.length ≠ 0 then npMeanVal pnl_los else 0)
      avgPctLos := if pct_cr_los.length ≠ 0 then npMeanVal pct_cr_los else 0
      maxWin := quantizeZ (if pnl_win.length ≠ 0 then npMaxVal pnl_win else 0)
      maxLos := quantizeZ (if pnl_los.length ≠ 0 then npMinVal pnl_los else 0)
    }

/-- The two-chain scenario from the spec: one winner, one loser. -/
def demoChains : List ChainRow := [⟨100, 200, 0⟩, ⟨-50, 100, 0⟩]

/-- C1: on an empty chain table `stats` faults instead of returning
all-zero rows: `'{:.1%}'.format(len(pnl_win)/len(pnl))` divides by zero,
and `Quantize(np.mean(init_cr))` quantizes NaN; neither carries the
`if arr.size else ZERO` guard used by every other aggregate. -/
theorem stats_empty_faults : stats [] = none := rfl

/-- C8: `PctCr` is total: the guarded division never faults, and the value
is `0` when `init = 0` and `chain_pnl / init` otherwise. -/
theorem pctCr_total (rec : ChainRow) :
    PctCrChecked rec = some (PctCr rec) ∧
    PctCr rec = (if rec.init = 0 then 0 else rec.chain_pnl / rec.init) := by
  by_cases h : rec.init = 0 <;> simp [PctCrChecked, PctCr, pyDiv, h]

/-- C7: `stats` partitions the chains: a chain is a winner exactly when
`chain_pnl > 0` and a loser exactly when `chain_pnl ≤ 0` (ties to losers,
a zero-P/L chain is a loser), each chain lands in exactly one side, and on
the spec's two-chain scenario the win count is 1 of 2. -/
theorem winners_losers_partition :
    (∀ (chains : List ChainRow) (c : ChainRow),
      (c ∈ winners chains ↔ c ∈ chains ∧ 0 < c.chain_pnl) ∧
      (c ∈ losers chains ↔ c ∈ chains ∧ c.chain_pnl ≤ 0)) ∧
    (∀ chains : List ChainRow,
      (winners chains).length + (losers chains).length = chains.length) ∧
    (⟨0, 50, 0⟩ : ChainRow) ∈ losers [⟨0, 50, 0⟩] ∧
    (winners demoChains).length = 1 ∧ (losers demoChains).length = 1 ∧
    demoChains.length = 2 := by
  refine ⟨?_, ?_, ?_, rfl, rfl, rfl⟩
  · intro chains c
    constructor
    · simp [winners, List.mem_filter]
    · simp [losers, List.mem_filter, not_lt]
  · intro chains
    induction chains with
    | nil => rfl
    | cons a l ih =>
      by_cases h0 : 0 < a.chain_pnl <;>
        simp [winners, losers, List.filter_cons, h0] at ih ⊢ <;>
        omega
  · simp [losers, List.filter_cons]

/-! ### Trade history renderer (`RenderHistoryText`)

`petl.aggregate` sorts the table by its key and reduces each group of
equal-key rows; we model the sort with a stable insertion sort and the
grouping with a run-grouping over the sorted list.  The rendered text
block is the list of group rows; the `accr` column is added with
`addfieldusingcontext`, i.e. a sequential fold carrying the previous
output row. -/

/-- Stable insertion of `a` into `l`: `a` goes before the first element
`b` with `le a b` (so before later equal keys — stability). -/
def insertStable {α : Type} (le : α → α → Bool) (a : α) : List α → List α
  | [] => [a]
  | b :: bs => if le a b then a :: b :: bs else b :: insertStable le a bs

/-- Stable insertion sort. -/
def sortStable {α : Type} (le : α → α → Bool) : List α → List α
  | [] => []
  | a :: as => insertStable le a (sortStable le as)

theorem insertStable_perm {α : Type} (le : α → α → Bool) (a : α) :
    ∀ l : List α, List.Perm (insertStable le a l) (a :: l)
  | [] => List.Perm.refl _
  | b :: bs => by
    by_cases h : le a b
    · simp [insertStable, h]
    · simp only [insertStable, h, if_false]
      exact ((insertStable_perm le a bs).cons b).trans (List.Perm.swap a b bs)

theorem sortStable_perm {α : Type} (le : α → α → Bool) :
    ∀ l : List α, List.Perm (sortStable le l) l
  | [] => List.Perm.refl _
  | a :: as =>
    (insertStable_perm le a (sortStable le as)).trans
      ((sortStable_perm le as).cons a)

/-- Group maximal runs of `eq`-related adjacent elements (the grouping of
`itertools.groupby` underlying `petl`'s aggregation of a sorted table). -/
def groupRuns {α : Type} (eq : α → α → Bool) : List α → List (List α)
  | [] => []
  | a :: as =>
    match groupRuns eq as with
    | (b :: g) :: gs => if eq a b then (a :: b :: g) :: gs else [a] :: (b :: g) :: gs
    | gs => [a] :: gs

theorem groupRuns_join {α : Type} (eq : α → α → Bool) :
    ∀ l : List α, (groupRuns eq l).flatten = l
  | [] => rfl
  | a :: as => by
    have ih := groupRuns_join eq as
    cases h : groupRuns eq as with
    | nil => simp [groupRuns, h]; simpa [h] using ih
    | cons g gs =>
      cases g with
      | nil => simp [groupRuns, h]; simpa [h] using ih
      | cons b g' =>
        by_cases he : eq a b <;> simp [groupRuns, h, he] <;> simpa [h] using ih

theorem groupRuns_ne_nil {α : Type} (eq : α → α → Bool) (a : α) (as : List α) :
    groupRuns eq (a :: as) ≠ [] := by
  cases h : groupRuns eq as with
  | nil => simp [groupRuns, h]
  | cons g gs =>
    cases g with
    | nil => simp [groupRuns, h]
    | cons b g' => by_cases he : eq a b <;> simp [groupRuns, h, he]

/-- A transaction row, restricted to the fields `RenderHistoryText`
consults. -/
structure Txn where
  datetime : ℤ
  order_id : String
  instruction : String
  effect : String
  quantity : ℚ
  symbol : String
  price : ℚ
  putcall : Option (List Char)
  cost : ℚ
deriving Repr, DecidableEq

/-- Lexicographic key order on `(datetime, order_id)`, the `petl`
aggregation key. -/
def txnKeyLe (a b : Txn) : Bool :=
  decide (a.datetime < b.datetime) ||
    (decide (a.datetime = b.datetime) && decide (a.order_id ≤ b.order_id))

/-- Key equality on `(datetime, order_id)`. -/
def txnKeyEq (a b : Txn) : Bool :=
  decide (a.datetime = b.datetime) && decide (a.order_id = b.order_id)

/-- `"{r.instruction}/{r.effect} {r.quantity} {r.symbol} @ {r.price}"`. -/
def fmtTxn (r : Txn) : String :=
  r.instruction ++ "/" ++ r.effect ++ " " ++ toString r.quantity ++ " "
    ++ r.symbol ++ " @ " ++ toString r.price

/-- `RenderStatic`: the non-option legs of one group. -/
def RenderStatic (rows : List Txn) : String :=
  String.intercalate "; "
    ((rows.filter (fun r => decide (r.putcall = none))).map fmtTxn)

/-- `RenderPuts`: legs whose `putcall` is truthy and starts with `P`. -/
def RenderPuts (rows : List Txn) : String :=
  String.intercalate "; "
    ((rows.filter (fun r =>
      match r.putcall with
      | some ('P' :: _) => true
      | _ => false)).map fmtTxn)

/-- `RenderCalls`: legs whose `putcall` is truthy and starts with `C`. -/
def RenderCalls (rows : List Txn) : String :=
  String.intercalate "; "
    ((rows.filter (fun r =>
      match r.putcall with
      | some ('C' :: _) => true
      | _ => false)).map fmtTxn)

/-- One output row of the `(datetime, order_id)` aggregation. -/
structure HistRow where
  datetime : ℤ
  order_id : String
  static : String
  puts : String
  calls : String
  cost : ℚ
deriving Repr, DecidableEq

/-- The key of a group (the group is never empty). -/
def groupKey (g : List Txn) : ℤ × String :=
  match g with
  | [] => (0, "")
  | t :: _ => (t.datetime, t.order_id)

/-- `txns.aggregate(['datetime', 'order_id'], agg)`: sort by key, group
equal keys, and reduce each group (rendered legs and summed cost). -/
def aggregateHist (txns : List Txn) : List HistRow :=
  (groupRuns txnKeyEq (sortStable txnKeyLe txns)).map (fun g =>
    { datetime := (groupKey g).1
      order_id := (groupKey g).2
      static := RenderStatic g
      puts := RenderPuts g
      calls := RenderCalls g
      cost := (g.map (fun t => t.cost)).sum })

/-- A group row with its running accrual. -/
structure AccrRow where
  row : HistRow
  accr : ℚ
deriving Repr, DecidableEq

/-- `addfieldusingcontext('accr', Accrue)`:
`accr = (prv.accr if prv else ZERO) + cur.cost`, a sequential fold
carrying the previous output row's accrual. -/
def addAccr (last : ℚ) : List HistRow → List AccrRow
  | [] => []
  | r :: rs => { row := r, accr := last + r.cost } :: addAccr (last + r.cost) rs

/-- The rendered rows of `RenderHistoryText` (the `<pre>` block renders
exactly this list). -/
def RenderHistoryText (txns : List Txn) : List AccrRow :=
  addAccr 0 (aggregateHist txns)

/-- The spec's reference accrual column: the left fold
`accr(group_i) = accr(group_{i-1}) + cost(group_i)` with `accr` of the
first group `0 + cost(group_0)` — i.e. running prefix sums. -/
def prefixSums (acc : ℚ) : List ℚ → List ℚ
  | [] => []
  | c :: cs => (acc + c) :: prefixSums (acc + c) cs

theorem addAccr_map_accr :
    ∀ (rows : List HistRow) (acc : ℚ),
      (addAccr acc rows).map (fun r => r.accr)
        = prefixSums acc (rows.map (fun r => r.cost))
  | [], _ => rfl
  | r :: rs, acc => by
    simp [addAccr, prefixSums, addAccr_map_accr rs (acc + r.cost)]

theorem prefixSums_getLast :
    ∀ (cs : List ℚ) (acc : ℚ), cs ≠ [] →
      (prefixSums acc cs).getLast? = some (acc + cs.sum)
  | [], _, h => absurd rfl h
  | [c], acc, _ => by simp [prefixSums]
  | c :: c' :: cs, acc, _ => by
    have ih := prefixSums_getLast (c' :: cs) (acc + c) (by simp)
    simp only [prefixSums] at ih ⊢
    rw [List.getLast?_cons_cons, ih]
    simp [add_assoc]

theorem sum_map_cost_groups (gs : List (List Txn)) :
    (gs.map (fun g => (g.map (fun t => t.cost)).sum)).sum
      = (gs.flatten.map (fun t => t.cost)).sum := by
  induction gs with
  | nil => rfl
  | cons g gs ih => simp [ih]

/-- C5: the accrual column of `RenderHistoryText` is exactly the left fold
of running prefix sums over the group cost sums, and the final group's
accrual equals the sum of `cost` over all of the chain's transactions. -/
theorem renderHistory_accrual (txns : List Txn) (h : txns ≠ []) :
    (RenderHistoryText txns).map (fun r => r.accr)
      = prefixSums 0 ((aggregateHist txns).map (fun r => r.cost)) ∧
    ((RenderHistoryText txns).map (fun r => r.accr)).getLast?
      = some ((txns.map (fun t => t.cost)).sum) := by
  refine ⟨addAccr_map_accr _ 0, ?_⟩
  simp only [RenderHistoryText]
  rw [addAccr_map_accr _ 0]
  have hsorted : sortStable txnKeyLe txns ≠ [] := by
    intro hnil
    exact h (List.Perm.eq_nil ((sortStable_perm txnKeyLe txns).symm.trans
      (hnil ▸ List.Perm.refl _)))
  obtain ⟨a, as, has⟩ := List.exists_cons_of_ne_nil hsorted
  have hgroups : groupRuns txnKeyEq (sortStable txnKeyLe txns) ≠ [] := by
    rw [has]; exact groupRuns_ne_nil txnKeyEq a as
  have hrows : (aggregateHist txns).map (fun r => r.cost) ≠ [] := by
    simp [aggregateHist, hgroups]
  rw [prefixSums_getLast _ 0 hrows]
  have hcosts : ((aggregateHist txns).map (fun r => r.cost)).sum
      = (txns.map (fun t => t.cost)).sum := by
    have h1 : (aggregateHist txns).map (fun r => r.cost)
        = (groupRuns txnKeyEq (sortStable txnKeyLe txns)).map
            (fun g => (g.map (fun t => t.cost)).sum) := by
      simp [aggregateHist, List.map_map]
    rw [h1, sum_map_cost_groups, groupRuns_join]
    exact List.Perm.sum_eq (List.Perm.map _ (sortStable_perm txnKeyLe txns))
  rw [hcosts, zero_add]

/-- Two one-leg execution events used as the witness chain. -/
def demoTxns : List Txn :=
  [{ datetime := 1, order_id := "A", instruction := "BUY",
     effect := "OPENING", quantity := 1, symbol := "SPY", price := 2,
     putcall := none, cost := 10 },
   { datetime := 2, order_id := "B", instruction := "SELL",
     effect := "CLOSING", quantity := 1, symbol := "SPY", price := 3,
     putcall := none, cost := -4 }]

theorem renderHistory_accrual_witness :
    ((RenderHistoryText demoTxns).map (fun r => r.accr)).getLast?
      = some ((demoTxns.map (fun t => t.cost)).sum) :=
  (renderHistory_accrual demoTxns (by simp [demoTxns])).2

/-! ### SVG timeline renderer (`RenderHistorySVG`)

The renderer sorts the transactions, computes one scale tick per distinct
strike on a 1000 px horizontal axis, and walks the rows in datetime order
emitting one label per row, advancing `y` by 12 px per row plus 30 px
whenever the datetime changes from the previous row. -/

/-- A transaction row restricted to the fields of
`clean_txns = txns.sort([...]).cut('datetime', 'description', 'strike', 'cost')`;
`strike` is `None` for non-option rows. -/
structure SvgTxn where
  datetime : ℤ
  description : String
  strike : Option ℚ
  cost : ℚ
deriving Repr, DecidableEq

/-- Python `int()` on a rational: truncation toward zero. -/
def pyInt (q : ℚ) : ℤ := if 0 ≤ q then ⌊q⌋ else ⌈q⌉

/-- Order on optional strikes used only to fix the secondary sort key of
`sort(['datetime', 'strike'])` (claims do not depend on the order of rows
sharing a datetime). -/
def optionStrikeLe (a b : Option ℚ) : Bool :=
  match a, b with
  | none, _ => true
  | some _, none => false
  | some x, some y => decide (x ≤ y)

/-- `txns.sort(['datetime', 'strike'])`. -/
def svgSortKeyLe (a b : SvgTxn) : Bool :=
  decide (a.datetime < b.datetime) ||
    (decide (a.datetime = b.datetime) && optionStrikeLe a.strike b.strike)

/-- `clean_txns.sort('datetime')`, the iteration order of the label loop. -/
def svgDatetimeLe (a b : SvgTxn) : Bool := decide (a.datetime ≤ b.datetime)

/-- The rows the label loop iterates, in order. -/
def svgIterTxns (txns : List SvgTxn) : List SvgTxn :=
  sortStable svgDatetimeLe (sortStable svgSortKeyLe txns)

/-- `sorted({strike for strike in values if strike is not None})`. -/
def svgStrikes (txns : List SvgTxn) : List ℚ :=
  sortStable (fun a b => decide (a ≤ b))
    ((sortStable svgSortKeyLe txns).filterMap (fun t => t.strike)).dedup

/-- `min(strikes)` (the empty case is behind the `if not strikes` guard). -/
def minStrike (txns : List SvgTxn) : ℚ := npMinVal (svgStrikes txns)

/-- `diff_strike`, with the all-equal-strikes unit substitution. -/
def diffStrike (txns : List SvgTxn) : ℚ :=
  let d := npMaxVal (svgStrikes txns) - minStrike txns
  if d = 0 then 1 else d

/-- `int((strike - min_strike) / diff_strike * width)` with `width = 1000`. -/
def strikeX (txns : List SvgTxn) (s : ℚ) : ℤ :=
  pyInt ((s - minStrike txns) / diffStrike txns * 1000)

/-- The x positions of the scale ticks, one per distinct strike in
ascending order. -/
def tickXs (txns : List SvgTxn) : List ℤ :=
  (svgStrikes txns).map (strikeX txns)

/-- The y layout loop: starting at `y = 20` with no previous datetime, each
row adds 30 px when its datetime differs from the previous row's, emits its
label at the current `y`, then advances `y` by 12 px. -/
def yPositions (y : ℤ) (prev : Option ℤ) : List ℤ → List ℤ
  | [] => []
  | d :: ds =>
    let y1 := match prev with
      | some p => if p = d then y else y + 30
      | none => y
    y1 :: yPositions (y1 + 12) (some d) ds

/-- The y coordinates of the per-transaction labels, in iteration order. -/
def svgYs (txns : List SvgTxn) : List ℤ :=
  yPositions 20 none ((svgIterTxns txns).map (fun t => t.datetime))

theorem yPositions_step :
    ∀ (dts : List ℤ) (y : ℤ) (p : Option ℤ) (i : ℕ),
      i + 1 < dts.length →
      (yPositions y p dts).get? (i + 1)
        = ((yPositions y p dts).get? i).map (fun yi =>
            yi + 12 + if dts.get? (i + 1) = dts.get? i then 0 else 30)
  | [], _, _, _, h => by simp at h
  | [_], _, _, _, h => by simp at h
  | d1 :: d2 :: rest, y, p, 0, _ => by
    by_cases hd : d1 = d2 <;>
      [skip; have hd2 : ¬(d2 = d1) := fun hh => hd hh.symm] <;>
      simp_all [yPositions]
  | d1 :: d2 :: rest, y, p, i + 1, h => by
    have h' : i + 1 < (d2 :: rest).length := by
      simpa using Nat.lt_of_succ_lt_succ h
    simp only [yPositions, List.get?_cons_succ]
    exact yPositions_step (d2 :: rest) _ (some d1) i h'

theorem yPositions_replicate :
    ∀ (n : ℕ) (y d : ℤ) (prev : Option ℤ), prev = none ∨ prev = some d →
      yPositions y prev (List.replicate n d)
        = (List.range n).map (fun i : ℕ => y + 12 * (i : ℤ))
  | 0, _, _, _, _ => rfl
  | n + 1, y, d, prev, hp => by
    have ih := yPositions_replicate n (y + 12) d (some d) (Or.inr rfl)
    have hmap : (List.range (n + 1)).map (fun i : ℕ => y + 12 * (i : ℤ))
        = y :: (List.range n).map (fun i : ℕ => (y + 12) + 12 * (i : ℤ)) := by
      rw [List.range_succ_eq_map, List.map_cons, List.map_map]
      congr 1
      · norm_num
      · apply List.map_congr_left
        intro i _
        simp only [Function.comp_apply]
        push_cast
        ring
    rcases hp with rfl | rfl
    · simp only [List.replicate_succ, yPositions]
      rw [ih, hmap]
    · simp only [List.replicate_succ, yPositions]
      rw [if_pos trivial, ih, hmap]

theorem svgIter_datetimes_replicate (txns : List SvgTxn) (d : ℤ)
    (h : ∀ t ∈ txns, t.datetime = d) :
    (svgIterTxns txns).map (fun t => t.datetime)
      = List.replicate txns.length d := by
  have hperm : List.Perm (svgIterTxns txns) txns :=
    (sortStable_perm svgDatetimeLe _).trans (sortStable_perm svgSortKeyLe txns)
  rw [List.eq_replicate_iff]
  refine ⟨by simp [hperm.length_eq], ?_⟩
  intro b hb
  obtain ⟨t, ht, rfl⟩ := List.mem_map.mp hb
  exact h t (hperm.mem_iff.mp ht)

/-- The spec's three-strike, one-datetime scenario. -/
def demoSvgTxns : List SvgTxn :=
  [{ datetime := 0, description := "leg at 100", strike := some 100, cost := 0 },
   { datetime := 0, description := "leg at 105", strike := some 105, cost := 0 },
   { datetime := 0, description := "leg at 110", strike := some 110, cost := 0 }]

/-- C9: the vertical layout advances `y` by 12 px after every row plus an
extra 30 px exactly when the row's datetime differs from the previous
row's; a transaction set with all-equal datetimes gets the label ys
`20, 32, 44, …` with no 30 px jump; and for strikes {100, 105, 110} the
renderer emits 3 scale ticks at the evenly spaced x positions 0, 500 and
1000 across the 1000 px width. -/
theorem svg_vertical_advance_and_ticks :
    (∀ (dts : List ℤ) (i : ℕ), i + 1 < dts.length →
      (yPositions 20 none dts).get? (i + 1)
        = ((yPositions 20 none dts).get? i).map (fun yi =>
            yi + 12 + if dts.get? (i + 1) = dts.get? i then 0 else 30)) ∧
    (∀ (txns : List SvgTxn) (d : ℤ), (∀ t ∈ txns, t.datetime = d) →
      svgYs txns
        = (List.range txns.length).map (fun i : ℕ => 20 + 12 * (i : ℤ))) ∧
    tickXs demoSvgTxns = [0, 500, 1000] := by
  refine ⟨fun dts i h => yPositions_step dts 20 none i h, ?_, ?_⟩
  · intro txns d h
    unfold svgYs
    rw [svgIter_datetimes_replicate txns d h]
    exact yPositions_replicate txns.length 20 d none (Or.inl rfl)
  · have hstrikes : svgStrikes demoSvgTxns = [100, 105, 110] := by decide
    have hmin : minStrike demoSvgTxns = 100 := by
      rw [minStrike, hstrikes]; norm_num [npMinVal, min_def]
    have hdiff : diffStrike demoSvgTxns = 10 := by
      rw [diffStrike, hstrikes]
      norm_num [npMaxVal, max_def, hmin, minStrike, hstrikes, min_def, npMinVal]
    rw [tickXs, hstrikes]
    simp only [List.map_cons, List.map_nil, strikeX, hmin, hdiff, pyInt]
    norm_num

theorem svg_vertical_advance_and_ticks_witness :
    svgYs demoSvgTxns
      = (List.range demoSvgTxns.length).map (fun i : ℕ => 20 + 12 * (i : ℤ)) :=
  svg_vertical_advance_and_ticks.2.1 demoSvgTxns 0 (by decide)

end Johnny
